import Mathlib

/-!
# Verification of the protein feature analysis core

A shallow embedding, in Lean 4, of the core routines of the
`ProteinFeatureAnalyzer` package:

* `features/geometry.py` — neighbor search over residue centers
  (`get_nearest_nonbonded_residues`), local frame construction
  (`normalize`, `get_residue_stub_matrix`) and Euler-angle ↔ rotation
  matrix conversion (`rotation_matrix_to_euler_angles`,
  `euler_angles_to_rotation_matrix`);
* `features/secondary_structures.py` — the DSSP output handling
  (`make_dssp_dict`), secondary-structure segmentation (`same_ss`) and
  beta-sheet graph construction (`BetaSheet.init_sheet_graph`);
* `features/BackboneMicroEnvironmentFeature.py` — the per-pair feature
  extraction loop (`extract_from_one_file`).

Python floating-point coordinates and energies are modelled by `ℚ` where
the verified properties are order/equality-theoretic (neighbor ranking,
energy thresholds), and by `ℝ` for the trigonometric / square-root
material (frames, Euler angles).  Python dictionaries are modelled by
association lists whose lookup returns the most recently inserted
binding, matching dictionary overwrite semantics.  Fallible Python code
(raised exceptions) is modelled with `Except String`.
-/

/-- First-match association-list lookup.  The building code below conses
new bindings to the front, so the first match is the most recent one,
which models Python dictionary assignment followed by lookup. -/
def alookup {α β : Type} [DecidableEq α] : List (α × β) → α → Option β
  | [], _ => none
  | (k, v) :: rest, a => if a = k then some v else alookup rest a

@[simp]
theorem alookup_nil {α β : Type} [DecidableEq α] (a : α) :
    alookup ([] : List (α × β)) a = none := rfl

@[simp]
theorem alookup_cons {α β : Type} [DecidableEq α] (k : α) (v : β)
    (rest : List (α × β)) (a : α) :
    alookup ((k, v) :: rest) a = if a = k then some v else alookup rest a := rfl

/-! ## NeighborFinder: `get_nearest_nonbonded_residues` (geometry.py lines 54-94)

The source works with floating-point CA coordinates, but the neighbor
search uses them only through comparisons of Euclidean distances, so the
embedding is generic over a linear ordered commutative ring of scalars
(any field containing the float values can instantiate it; concrete
test inputs below use `ℤ`-valued coordinates). -/

variable {α : Type} [LinearOrderedCommRing α]

/-- A residue of a loaded structure model, as seen by the neighbor
search: its parent chain id (`residue.get_parent().get_id()`), its
residue number (`residue.get_id()[1]`), its hetero flag
(`residue.get_id()[0]`, a string: `' '` for a standard residue, `'W'`
for water, `'H_...'` for a heteroatom residue) and the coordinate of its
CA atom.  Strings are modelled as lists of characters. -/
structure Res (α : Type) where
  chain : Char
  seq : Int
  flag : List Char
  ca : α × α × α
  deriving DecidableEq, Repr

instance [Zero α] : Inhabited (Res α) := ⟨⟨' ', 0, [], (0, 0, 0)⟩⟩

/-- The hetero-flag test of geometry.py lines 63-64:
`flag == 'W' or flag.startswith('H_')`. -/
def isHetFlag (flag : List Char) : Bool :=
  flag = ['W'] || flag.take 2 = ['H', '_']

/-- geometry.py lines 60-68: collect the residues that survive the
solvent/heteroatom filter (each contributing its CA atom as center). -/
def caResidues (model : List (Res α)) : List (Res α) :=
  model.filter (fun r => !(isHetFlag r.flag))

/-- Squared Euclidean distance between two centers.  Ranking neighbors
by squared distance is the same as ranking them by Euclidean distance. -/
def sqDist (p q : α × α × α) : α :=
  (p.1 - q.1) ^ 2 + (p.2.1 - q.2.1) ^ 2 + (p.2.2 - q.2.2) ^ 2

/-- Stable insertion of an index into a list sorted by the key `d`. -/
def insertByKey (d : Nat → α) (j : Nat) : List Nat → List Nat
  | [] => [j]
  | k :: rest => if d j ≤ d k then j :: k :: rest else k :: insertByKey d j rest

/-- Stable insertion sort of a list of indices by the key `d`. -/
def sortByKey (d : Nat → α) : List Nat → List Nat
  | [] => []
  | j :: rest => insertByKey d j (sortByKey d rest)

/-- Modelled from the spec: the external k-nearest-neighbor index
(`scipy.spatial.KDTree.query` at geometry.py lines 74, 82) is an
external collaborator; §4.2 of the spec says the query returns, for
center `i`, the nearest centers in increasing-distance order, the query
point itself included at distance 0, and §9 says tie order among
equidistant candidates is implementation-defined.  We model the full
ranking: all indices sorted by distance to center `i`, ties broken by
index order; `query(ca_coords[i], k=4)` returns the first four. -/
def kdQueryIndices (coords : List (α × α × α)) (i : Nat) : List Nat :=
  (sortByKey (fun j => sqDist (coords.getD j (0, 0, 0)) (coords.getD i (0, 0, 0)))
    (List.range coords.length)).take 4

/-- The covalent-bond test of geometry.py lines 87-89: same parent chain
and residue numbers differing by exactly one. -/
def bondedRes (r1 r2 : Res α) : Bool :=
  r1.chain = r2.chain && (r1.seq + 1 = r2.seq || r1.seq - 1 = r2.seq)

/-- geometry.py lines 54-94, `get_nearest_nonbonded_residues`.  For each
center `i` the code queries the 4 nearest centers and runs
`for j in range(1, 4)`, assigning `res2 = ca_list[indices[j]].get_parent()`
and then, when the bonded test holds, executing `continue` — which is
the final statement of the loop body, so it skips nothing: the
assignment to `res2` above it stands either way, which the
`if bondedRes res1 r then r else r` below reproduces.  The `append` at
line 92 sits outside the `j` loop, so exactly one pair is appended per
center, with `res2` left at the last inspected candidate. -/
def get_nearest_nonbonded_residues (model : List (Res α)) : List (Res α × Res α) :=
  let ca_list := caResidues model
  let ca_coords := ca_list.map (·.ca)
  (List.range ca_list.length).map (fun i =>
    let res1 := ca_list.getD i default
    let indices := kdQueryIndices ca_coords i
    let res2 := [1, 2, 3].foldl (fun _res2 j =>
      let r := ca_list.getD (indices.getD j 0) default
      if bondedRes res1 r then r else r) res1
    (res1, res2))

/-- The retained-candidate policy as the claim (spec §4.2) states it:
inspect the 3 nearest non-self candidates in increasing-distance order
and keep the last one that is NOT rejected by the covalent-bond test.
This definition follows the claim's words and is compared against the
loop the source actually runs. -/
def spec_lastAcceptedCandidate (model : List (Res α)) (i : Nat) : Option (Res α) :=
  let ca_list := caResidues model
  let res1 := ca_list.getD i default
  let indices := kdQueryIndices (ca_list.map (·.ca)) i
  [1, 2, 3].foldl (fun acc j =>
    let r := ca_list.getD (indices.getD j 0) default
    if bondedRes res1 r then acc else some r) none

/-- A synthetic single-chain model of four residues with collinear CA
atoms, numbered 1-4 along the chain but placed on the line in the order
1, 3, 4, 2: residue 1 sits at x = 0 and its covalent successor,
residue 2, at x = 3, behind residues 3 (x = 1) and 4 (x = 2).  For the
query at residue 1 the three nearest non-self centers are therefore
residue 3, residue 4 and residue 2, in increasing-distance order, and
the last inspected candidate is the covalently bonded residue 2. -/
def lineModel : List (Res ℤ) :=
  [⟨'A', 1, [' '], (0, 0, 0)⟩, ⟨'A', 2, [' '], (3, 0, 0)⟩,
   ⟨'A', 3, [' '], (1, 0, 0)⟩, ⟨'A', 4, [' '], (2, 0, 0)⟩]

/-- C1.  The claim says the pair list returned by
`get_nearest_nonbonded_residues` never contains a same-chain pair whose
residue numbers differ by exactly 1.  The code violates it: on
`lineModel` the emitted pair for residue 1 is its covalently bonded
successor, residue 2, because the `append` of geometry.py line 92 sits
outside the candidate loop and the `continue` at line 90 guards no
statement, so the bonded-candidate rejection never takes effect. -/
theorem C1_covalent_pair_emitted :
    ∃ p ∈ get_nearest_nonbonded_residues lineModel,
      p.1.chain = p.2.chain ∧ p.1.seq + 1 = p.2.seq := by decide

/-- C2, counterexample.  The claim says the pair emitted for a query
residue retains the last inspected candidate THAT IS NOT REJECTED as
covalently bonded.  On `lineModel`, the pair emitted for residue 1
retains a candidate that the covalent-bond test rejects (residue 2),
whereas the policy stated by the claim would retain residue 4. -/
theorem C2_retained_candidate_counterexample :
    ((get_nearest_nonbonded_residues lineModel).getD 0 default).2.seq = 2 ∧
    bondedRes ((get_nearest_nonbonded_residues lineModel).getD 0 default).1
      ((get_nearest_nonbonded_residues lineModel).getD 0 default).2 = true ∧
    spec_lastAcceptedCandidate lineModel 0 = some ⟨'A', 4, [' '], (2, 0, 0)⟩ := by decide

/-- C2, amended.  `get_nearest_nonbonded_residues` inspects the 3
nearest non-self centers of each query residue in increasing-distance
order and retains the LAST INSPECTED candidate unconditionally — the
covalent-bond rejection has no effect on the retained value — and it
emits exactly one `(res1, res2)` pair for EVERY query residue, whether
or not any candidate was accepted.  (The hypothesis `4 ≤ n` reflects
the source's precondition: with fewer than four centers the library
query of geometry.py line 82 has no four neighbors to return.) -/
theorem C2_last_inspected_retained {α : Type} [LinearOrderedCommRing α]
    (model : List (Res α)) (h4 : 4 ≤ (caResidues model).length) :
    (get_nearest_nonbonded_residues model).length = (caResidues model).length ∧
    ∀ i, i < (caResidues model).length →
      (get_nearest_nonbonded_residues model).getD i default =
        ((caResidues model).getD i default,
         (caResidues model).getD
           ((kdQueryIndices ((caResidues model).map (·.ca)) i).getD 3 0) default) := by
  constructor
  · simp [get_nearest_nonbonded_residues]
  · intro i hi
    have hrange : (List.range (caResidues model).length)[i]? = some i :=
      List.getElem?_range hi
    simp [get_nearest_nonbonded_residues, List.getD_eq_getElem?_getD,
      List.getElem?_map, hrange, List.foldl, ite_self]

/-- C2, witness for the amended theorem at the concrete model
`lineModel` (which has four centers). -/
theorem C2_last_inspected_retained_witness :
    4 ≤ (caResidues lineModel).length ∧
    ((get_nearest_nonbonded_residues lineModel).length = (caResidues lineModel).length ∧
    ∀ i, i < (caResidues lineModel).length →
      (get_nearest_nonbonded_residues lineModel).getD i default =
        ((caResidues lineModel).getD i default,
         (caResidues lineModel).getD
           ((kdQueryIndices ((caResidues lineModel).map (·.ca)) i).getD 3 0) default)) :=
  ⟨by decide, C2_last_inspected_retained lineModel (by decide)⟩

/-! ## AssignmentParser: `make_dssp_dict` (secondary_structures.py lines 10-74) -/

/-- The call `warnings.warn(err)` at secondary_structures.py line 27:
the module imports `subprocess`, `numpy`, `Bio.PDB`, `networkx` and
`geometry`, but never `warnings`, so evaluating the name `warnings`
raises `NameError` at run time. -/
def warningsWarn (_msg : String) : Except String Unit :=
  Except.error "NameError: name warnings is not defined"

/-- Truthiness of `s.strip()` for a text `s` modelled as its character
list: the stripped string is non-empty exactly when some character of
`s` is not whitespace. -/
def stripTruthy (s : List Char) : Bool :=
  s.any (fun c => !c.isWhitespace)

/-- secondary_structures.py lines 24-29, the error-report step of
`make_dssp_dict`: when the external tool wrote non-empty diagnostic
text (`err.strip()` truthy), warn, and then raise if it produced no
output text.  All raised exceptions are modelled in the error channel;
texts are modelled as character lists. -/
def make_dssp_dict_error_check (out err : List Char) : Except String Unit :=
  if stripTruthy err then
    match warningsWarn (String.mk err) with
    | Except.error e => Except.error e
    | Except.ok _ =>
      if !(stripTruthy out) then Except.error "DSSP failed to produce an output"
      else Except.ok ()
  else Except.ok ()

/-- C5.  The claim says a non-empty diagnostic together with non-empty
output text lets parsing proceed normally.  The code instead aborts:
with any non-empty diagnostic the first statement executed is
`warnings.warn(err)`, and `warnings` is an unbound name, so a
`NameError` is raised before the output text is even examined. -/
theorem C5_diagnostic_with_output_raises :
    make_dssp_dict_error_check
      "  #  RESIDUE AA STRUCTURE".toList "a non-fatal diagnostic".toList =
      Except.error "NameError: name warnings is not defined" := by rfl

/-- One hydrogen-bond descriptor: a `(relative sequence offset, bond
energy)` pair as parsed at secondary_structures.py lines 61-64 and
69-72.  The float energy is modelled as an exact rational. -/
abbrev HBondDesc : Type := Int × ℚ

/-- The residue key used by the DSSP dictionary: `(chain_id, res_id)`. -/
abbrev ResKey : Type := Char × Int

/-- The fields of one parsed DSSP data line (secondary_structures.py
lines 52-64).  The fixed-column slicing of the raw line into these
fields is mechanical and is not re-modelled; the claims quantify over
the parsed rows. -/
structure DsspRow where
  seq_num : Int
  chain_id : Char
  res_id : Int
  ss : Char
  bbl1 : Char
  bbl2 : Char
  bp1 : Int
  bp2 : Int
  bsl : Char
  nh_to_o1 : HBondDesc
  o_to_nh1 : HBondDesc
  nh_to_o2 : HBondDesc
  o_to_nh2 : HBondDesc
  deriving DecidableEq, Repr

/-- The value stored in the DSSP dictionary for one residue
(secondary_structures.py lines 67-72). -/
structure DsspRecord where
  seq_num : Int
  ss : Char
  bbl1 : Char
  bbl2 : Char
  bp1 : Int
  bp2 : Int
  bsl : Char
  nh_to_o1 : HBondDesc
  o_to_nh1 : HBondDesc
  nh_to_o2 : HBondDesc
  o_to_nh2 : HBondDesc
  deriving DecidableEq, Repr

/-- The key `(chain_id, res_id)` under which a row is stored. -/
def DsspRow.key (row : DsspRow) : ResKey := (row.chain_id, row.res_id)

/-- The dictionary value built from a row (lines 67-72). -/
def DsspRow.record (row : DsspRow) : DsspRecord :=
  ⟨row.seq_num, row.ss, row.bbl1, row.bbl2, row.bp1, row.bp2, row.bsl,
   row.nh_to_o1, row.o_to_nh1, row.nh_to_o2, row.o_to_nh2⟩

@[simp]
theorem DsspRow.record_seq_num (row : DsspRow) :
    (DsspRow.record row).seq_num = row.seq_num := rfl

/-- The loop body of secondary_structures.py lines 66-67:
`key_map[seq_num] = (chain_id, res_id)` and
`dssp_dict[(chain_id, res_id)] = {...}`.  New bindings go to the front,
so `alookup` sees the most recent assignment, as a Python dict does. -/
def buildStep (acc : List (ResKey × DsspRecord) × List (Int × ResKey))
    (row : DsspRow) : List (ResKey × DsspRecord) × List (Int × ResKey) :=
  ((row.key, row.record) :: acc.1, (row.seq_num, row.key) :: acc.2)

/-- secondary_structures.py lines 43-74: fold the parsed data rows into
the DSSP dictionary and the sequence-number index, in input order. -/
def make_dssp_dict (rows : List DsspRow) :
    List (ResKey × DsspRecord) × List (Int × ResKey) :=
  rows.foldl buildStep ([], [])

theorem buildDssp_loop_inv :
    ∀ (rows : List DsspRow) (d : List (ResKey × DsspRecord))
      (km : List (Int × ResKey)) (S : Int → Prop),
      (∀ k rec, alookup d k = some rec →
        S rec.seq_num ∧ alookup km rec.seq_num = some k) →
      (∀ row ∈ rows, ¬ S row.seq_num) →
      rows.Pairwise (fun r1 r2 => r1.seq_num ≠ r2.seq_num) →
      ∀ k rec,
        alookup (rows.foldl buildStep (d, km)).1 k = some rec →
        (S rec.seq_num ∨ rec.seq_num ∈ rows.map DsspRow.seq_num) ∧
        alookup (rows.foldl buildStep (d, km)).2 rec.seq_num = some k := by
  intro rows
  induction rows with
  | nil =>
    intro d km S hinv _ _ k rec hk
    exact ⟨Or.inl (hinv k rec hk).1, (hinv k rec hk).2⟩
  | cons row rest ih =>
    intro d km S hinv hfresh hpair k rec hk
    rw [List.foldl_cons] at hk ⊢
    have hpair1 := (List.pairwise_cons.mp hpair).1
    have hpair2 := (List.pairwise_cons.mp hpair).2
    have hinv2 : ∀ k rec,
        alookup (buildStep (d, km) row).1 k = some rec →
        (S rec.seq_num ∨ rec.seq_num = row.seq_num) ∧
        alookup (buildStep (d, km) row).2 rec.seq_num = some k := by
      intro k rec hlk
      simp only [buildStep, alookup_cons] at hlk ⊢
      by_cases hkey : k = row.key
      · rw [if_pos hkey] at hlk
        obtain rfl : row.record = rec := by injection hlk
        refine ⟨Or.inr rfl, ?_⟩
        rw [DsspRow.record_seq_num, if_pos rfl]
        exact congrArg some hkey.symm
      · rw [if_neg hkey] at hlk
        obtain ⟨hS, hkm⟩ := hinv k rec hlk
        have hne : rec.seq_num ≠ row.seq_num := by
          intro he
          exact hfresh row (List.mem_cons_self row rest) (he ▸ hS)
        rw [if_neg hne]
        exact ⟨Or.inl hS, hkm⟩
    have hfresh2 : ∀ r ∈ rest, ¬ (S r.seq_num ∨ r.seq_num = row.seq_num) := by
      intro r hr hor
      rcases hor with hS | he
      · exact hfresh r (List.mem_cons_of_mem row hr) hS
      · exact hpair1 r hr he.symm
    have := ih (buildStep (d, km) row).1 (buildStep (d, km) row).2
      (fun s => S s ∨ s = row.seq_num) hinv2 hfresh2 hpair2 k rec hk
    refine ⟨?_, this.2⟩
    rcases this.1 with (hS | he) | hm
    · exact Or.inl hS
    · exact Or.inr (by simp [he])
    · exact Or.inr (by simp [hm])

/-- C10.  When the parsed data rows carry pairwise-distinct sequence
numbers, the sequence-number index inverts the per-record key
assignment: for every key `k` bound in the DSSP dictionary, looking the
stored record's own `seq_num` up in the index returns `k` itself. -/
theorem C10_key_map_inverts_seq_num (rows : List DsspRow)
    (hdist : rows.Pairwise (fun r1 r2 => r1.seq_num ≠ r2.seq_num)) :
    ∀ k rec, alookup (make_dssp_dict rows).1 k = some rec →
      alookup (make_dssp_dict rows).2 rec.seq_num = some k := by
  intro k rec hk
  exact (buildDssp_loop_inv rows [] [] (fun _ => False)
    (by intro k rec h; simp [alookup] at h)
    (by intro row _ h; exact h) hdist k rec hk).2

/-- C10, witness: two rows with distinct sequence numbers. -/
theorem C10_key_map_inverts_seq_num_witness :
    ([⟨1, 'A', 10, 'H', ' ', ' ', 0, 0, ' ', (0, 0), (0, 0), (0, 0), (0, 0)⟩,
      ⟨2, 'A', 11, 'E', ' ', ' ', 0, 0, 'A', (0, 0), (0, 0), (0, 0), (0, 0)⟩] :
        List DsspRow).Pairwise (fun r1 r2 => r1.seq_num ≠ r2.seq_num) ∧
    (∀ k rec,
      alookup (make_dssp_dict
        [⟨1, 'A', 10, 'H', ' ', ' ', 0, 0, ' ', (0, 0), (0, 0), (0, 0), (0, 0)⟩,
         ⟨2, 'A', 11, 'E', ' ', ' ', 0, 0, 'A', (0, 0), (0, 0), (0, 0), (0, 0)⟩]).1 k
          = some rec →
      alookup (make_dssp_dict
        [⟨1, 'A', 10, 'H', ' ', ' ', 0, 0, ' ', (0, 0), (0, 0), (0, 0), (0, 0)⟩,
         ⟨2, 'A', 11, 'E', ' ', ' ', 0, 0, 'A', (0, 0), (0, 0), (0, 0), (0, 0)⟩]).2
           rec.seq_num = some k) :=
  ⟨by decide, C10_key_map_inverts_seq_num _ (by decide)⟩

/-! ## SegmentBuilder: `same_ss` (secondary_structures.py lines 84-93) -/

/-- The translation map of secondary_structures.py line 84 read through
`setdefault(key, ' ')` (lines 92-93): a symbol among
`H B E G I T` maps to itself, every other symbol maps to the blank/loop
symbol `' '` (and is memoised as such, which leaves the map's
observable value unchanged). -/
def ss_map_get (c : Char) : Char :=
  if c ∈ (['H', 'B', 'E', 'G', 'I', 'T'] : List Char) then c else ' '

/-- secondary_structures.py lines 86-93, `same_ss`: two residues have
the same secondary structure iff their mapped symbols agree AND their
beta-sheet labels agree — the label comparison is unconditional.
Missing keys raise `KeyError` in Python, modelled by `none`. -/
def same_ss (dssp : List (ResKey × DsspRecord)) (key1 key2 : ResKey) : Option Bool :=
  match alookup dssp key1, alookup dssp key2 with
  | some r1, some r2 => some (ss_map_get r1.ss == ss_map_get r2.ss && r1.bsl == r2.bsl)
  | _, _ => none

/-- The same-segment relation as the claim (spec §4.5) states it: the
mapped assignment classes must agree, and the sheet labels are compared
only when the residues are strand-classed (symbols `E` and `B`). -/
def spec_same_segment (r1 r2 : DsspRecord) : Bool :=
  ss_map_get r1.ss == ss_map_get r2.ss &&
    (if ss_map_get r1.ss ∈ (['E', 'B'] : List Char) then r1.bsl == r2.bsl else true)

/-- C6, counterexample.  Two helix residues (`ss = 'H'`, not
strand-classed) whose sheet-label fields differ: the claim says they
belong to the same segment, but `same_ss` compares the sheet labels
unconditionally and answers `false`. -/
theorem C6_nonstrand_label_counterexample :
    spec_same_segment
      ⟨1, 'H', ' ', ' ', 0, 0, 'A', (0, 0), (0, 0), (0, 0), (0, 0)⟩
      ⟨2, 'H', ' ', ' ', 0, 0, 'B', (0, 0), (0, 0), (0, 0), (0, 0)⟩ = true ∧
    same_ss
      [(('A', 1), ⟨1, 'H', ' ', ' ', 0, 0, 'A', (0, 0), (0, 0), (0, 0), (0, 0)⟩),
       (('A', 2), ⟨2, 'H', ' ', ' ', 0, 0, 'B', (0, 0), (0, 0), (0, 0), (0, 0)⟩)]
      ('A', 1) ('A', 2) = some false := by decide

/-- C6, amended.  Two residues are same-segment iff their mapped
assignment classes are equal AND their sheet labels are equal, for all
residues regardless of class: the sheet-label requirement is not
restricted to strand-classed residues. -/
theorem C6_same_ss_iff (dssp : List (ResKey × DsspRecord)) (key1 key2 : ResKey)
    (r1 r2 : DsspRecord)
    (h1 : alookup dssp key1 = some r1) (h2 : alookup dssp key2 = some r2) :
    same_ss dssp key1 key2 = some true ↔
      (ss_map_get r1.ss = ss_map_get r2.ss ∧ r1.bsl = r2.bsl) := by
  simp [same_ss, h1, h2]

/-- C6, witness for the amended theorem: two strand residues of the
same sheet. -/
theorem C6_same_ss_iff_witness :
    (alookup
        [(('A', 1), (⟨1, 'E', ' ', ' ', 0, 0, 'A', (0, 0), (0, 0), (0, 0), (0, 0)⟩ : DsspRecord)),
         (('A', 2), (⟨2, 'E', ' ', ' ', 0, 0, 'A', (0, 0), (0, 0), (0, 0), (0, 0)⟩ : DsspRecord))]
        ('A', 1) = some ⟨1, 'E', ' ', ' ', 0, 0, 'A', (0, 0), (0, 0), (0, 0), (0, 0)⟩) ∧
    (same_ss
        [(('A', 1), ⟨1, 'E', ' ', ' ', 0, 0, 'A', (0, 0), (0, 0), (0, 0), (0, 0)⟩),
         (('A', 2), ⟨2, 'E', ' ', ' ', 0, 0, 'A', (0, 0), (0, 0), (0, 0), (0, 0)⟩)]
        ('A', 1) ('A', 2) = some true ↔
      (ss_map_get 'E' = ss_map_get 'E' ∧ ('A' : Char) = 'A')) :=
  ⟨rfl,
    C6_same_ss_iff
      [(('A', 1), ⟨1, 'E', ' ', ' ', 0, 0, 'A', (0, 0), (0, 0), (0, 0), (0, 0)⟩),
       (('A', 2), ⟨2, 'E', ' ', ' ', 0, 0, 'A', (0, 0), (0, 0), (0, 0), (0, 0)⟩)]
      ('A', 1) ('A', 2)
      ⟨1, 'E', ' ', ' ', 0, 0, 'A', (0, 0), (0, 0), (0, 0), (0, 0)⟩
      ⟨2, 'E', ' ', ' ', 0, 0, 'A', (0, 0), (0, 0), (0, 0), (0, 0)⟩
      rfl rfl⟩

/-! ## SheetGraphBuilder: `BetaSheet.init_sheet_graph`
(secondary_structures.py lines 168-223)

The multigraph is represented, as the spec's design note §9 prescribes,
by the ordered sequence of its typed directed edges; its node set is
the set of endpoints of those edges, which is how a networkx multigraph
acquires nodes from `add_edge`. -/

/-- The edge types of the sheet graph: `pp_bond` for the backbone edges
of line 184 and the four hydrogen-bond kinds of lines 202-223. -/
inductive EdgeKind where
  | pp_bond
  | nh_to_o1
  | o_to_nh1
  | nh_to_o2
  | o_to_nh2
  deriving DecidableEq, Repr

/-- One typed directed edge of a sheet graph.  Residues are identified
by their canonical `(chain_id, residue_number)` key. -/
structure SheetEdge where
  src : ResKey
  dst : ResKey
  kind : EdgeKind
  deriving DecidableEq, Repr

/-- A beta strand (secondary_structures.py lines 162-166): its ordered
residues and its sheet label. -/
structure BetaStrand where
  residue_list : List ResKey
  sheet_id : Char
  deriving DecidableEq, Repr

/-- The consecutive pairs of a list: the pairs `(l[i], l[i+1])`
enumerated by `for i in range(len(l) - 1)` at line 182. -/
def consecutivePairs {β : Type} : List β → List (β × β)
  | a :: b :: rest => (a, b) :: consecutivePairs (b :: rest)
  | _ => []

/-- secondary_structures.py lines 181-184: one `pp_bond` edge per
consecutive residue pair inside each strand. -/
def backboneEdges (strands : List BetaStrand) : List SheetEdge :=
  (strands.map (fun s =>
    (consecutivePairs s.residue_list).map (fun p => ⟨p.1, p.2, EdgeKind.pp_bond⟩))).flatten

/-- secondary_structures.py line 188: the union (concatenation) of the
residues of all strands of the sheet. -/
def sheetResidues (strands : List BetaStrand) : List ResKey :=
  (strands.map (fun s => s.residue_list)).flatten

/-- secondary_structures.py line 195: hydrogen-bond edges require the
bond energy to be strictly below `-1.5`. -/
def HB_ENERGY_LIMIT : ℚ := -1.5

/-- One of the four hydrogen-bond blocks of lines 197-223: when the
descriptor's energy is strictly below the limit, resolve the partner
through `key_map[seq_num + offset]` (a missing key raises) and the
model (`model[key[0]][key[1]]`, a missing residue raises), and add one
typed edge when the partner belongs to the sheet's residue union. -/
def hbCheck (km : List (Int × ResKey)) (modelKeys : List ResKey)
    (residues : List ResKey) (res : ResKey) (seq_num : Int)
    (bond : HBondDesc) (kind : EdgeKind) : Except String (List SheetEdge) :=
  if bond.2 < HB_ENERGY_LIMIT then
    match alookup km (seq_num + bond.1) with
    | none => Except.error "KeyError: key_map"
    | some key =>
      if key ∈ modelKeys then
        Except.ok (if key ∈ residues then [⟨res, key, kind⟩] else [])
      else Except.error "KeyError: model"
  else Except.ok []

/-- The body of the residue loop of lines 190-223: look the residue up
in the DSSP dictionary (line 191; a missing key raises) and run the
four hydrogen-bond blocks in order. -/
def processResidue (dssp : List (ResKey × DsspRecord)) (km : List (Int × ResKey))
    (modelKeys : List ResKey) (residues : List ResKey) (res : ResKey) :
    Except String (List SheetEdge) :=
  match alookup dssp res with
  | none => Except.error "KeyError: dssp_dict"
  | some d =>
    match hbCheck km modelKeys residues res d.seq_num d.nh_to_o1 EdgeKind.nh_to_o1 with
    | Except.error e => Except.error e
    | Except.ok e1 =>
      match hbCheck km modelKeys residues res d.seq_num d.o_to_nh1 EdgeKind.o_to_nh1 with
      | Except.error e => Except.error e
      | Except.ok e2 =>
        match hbCheck km modelKeys residues res d.seq_num d.nh_to_o2 EdgeKind.nh_to_o2 with
        | Except.error e => Except.error e
        | Except.ok e3 =>
          match hbCheck km modelKeys residues res d.seq_num d.o_to_nh2 EdgeKind.o_to_nh2 with
          | Except.error e => Except.error e
          | Except.ok e4 => Except.ok (e1 ++ e2 ++ e3 ++ e4)

/-- The residue loop of lines 190-223 over a list of residues. -/
def processAll (dssp : List (ResKey × DsspRecord)) (km : List (Int × ResKey))
    (modelKeys : List ResKey) (residues : List ResKey) :
    List ResKey → Except String (List SheetEdge)
  | [] => Except.ok []
  | r :: rest =>
    match processResidue dssp km modelKeys residues r with
    | Except.error e => Except.error e
    | Except.ok er =>
      match processAll dssp km modelKeys residues rest with
      | Except.error e => Except.error e
      | Except.ok es => Except.ok (er ++ es)

/-- secondary_structures.py lines 175-223, `init_sheet_graph`: the
backbone edges of all strands followed by the hydrogen-bond edges
gathered over the sheet's residue union, in residue order. -/
def init_sheet_graph (dssp : List (ResKey × DsspRecord)) (km : List (Int × ResKey))
    (modelKeys : List ResKey) (strands : List BetaStrand) :
    Except String (List SheetEdge) :=
  match processAll dssp km modelKeys (sheetResidues strands) (sheetResidues strands) with
  | Except.error e => Except.error e
  | Except.ok hb => Except.ok (backboneEdges strands ++ hb)

/-- The descriptor of a record that feeds the hydrogen-bond block of a
given edge kind (`pp_bond` edges are not fed by a descriptor). -/
def bondOf (d : DsspRecord) : EdgeKind → Option HBondDesc
  | EdgeKind.pp_bond => none
  | EdgeKind.nh_to_o1 => some d.nh_to_o1
  | EdgeKind.o_to_nh1 => some d.o_to_nh1
  | EdgeKind.nh_to_o2 => some d.nh_to_o2
  | EdgeKind.o_to_nh2 => some d.o_to_nh2

/-- The node list of an edge list: every endpoint of every edge. -/
def nodesOf (edges : List SheetEdge) : List ResKey :=
  (edges.map (fun e => [e.src, e.dst])).flatten

theorem hbCheck_ok_shape {km : List (Int × ResKey)} {modelKeys residues : List ResKey}
    {res : ResKey} {s : Int} {bond : HBondDesc} {kind : EdgeKind} {l : List SheetEdge}
    (h : hbCheck km modelKeys residues res s bond kind = Except.ok l) :
    ∀ e ∈ l, e.src = res ∧ e.kind = kind ∧ e.dst ∈ residues := by
  intro e he
  unfold hbCheck at h
  split at h
  · split at h
    · exact absurd h (by simp)
    · split at h
      · injection h with h
        subst h
        split at he
        · rcases List.mem_singleton.mp he with rfl
          next hres => exact ⟨rfl, rfl, hres⟩
        · exact absurd he (List.not_mem_nil e)
      · exact absurd h (by simp)
  · injection h with h
    subst h
    exact absurd he (List.not_mem_nil e)

theorem hbCheck_mem_iff {km : List (Int × ResKey)} {modelKeys residues : List ResKey}
    {res : ResKey} {s : Int} {bond : HBondDesc} {kind : EdgeKind} {l : List SheetEdge}
    (h : hbCheck km modelKeys residues res s bond kind = Except.ok l) (p : ResKey) :
    SheetEdge.mk res p kind ∈ l ↔
      (bond.2 < HB_ENERGY_LIMIT ∧ alookup km (s + bond.1) = some p ∧ p ∈ residues) := by
  unfold hbCheck at h
  split at h
  next hlt =>
    split at h
    next hkm => exact absurd h (by simp)
    next key hkm =>
      split at h
      next hmk =>
        injection h with h
        subst h
        by_cases hres : key ∈ residues
        · rw [if_pos hres, hkm]
          constructor
          · intro he
            rcases List.mem_singleton.mp he with he
            injection he with h1 h2 h3
            subst h2
            exact ⟨hlt, rfl, hres⟩
          · rintro ⟨-, hp, -⟩
            injection hp with hp
            subst hp
            exact List.mem_singleton.mpr rfl
        · rw [if_neg hres, hkm]
          constructor
          · intro he
            exact absurd he (List.not_mem_nil _)
          · rintro ⟨-, hp, hpres⟩
            injection hp with hp
            exact absurd (hp ▸ hres) (not_not_intro hpres)
      next hmk => exact absurd h (by simp)
  next hlt =>
    injection h with h
    subst h
    constructor
    · intro he
      exact absurd he (List.not_mem_nil _)
    · rintro ⟨hc, -, -⟩
      exact absurd hc hlt

theorem processResidue_ok_shape {dssp : List (ResKey × DsspRecord)}
    {km : List (Int × ResKey)} {modelKeys residues : List ResKey}
    {res : ResKey} {er : List SheetEdge}
    (h : processResidue dssp km modelKeys residues res = Except.ok er) :
    ∀ e ∈ er, e.src = res ∧ e.kind ≠ EdgeKind.pp_bond ∧ e.dst ∈ residues := by
  intro e he
  unfold processResidue at h
  split at h
  · exact absurd h (by simp)
  split at h
  · exact absurd h (by simp)
  next h1 =>
  split at h
  · exact absurd h (by simp)
  next h2 =>
  split at h
  · exact absurd h (by simp)
  next h3 =>
  split at h
  · exact absurd h (by simp)
  next h4 =>
  injection h with h
  subst h
  rcases List.mem_append.mp he with he123 | he4m
  · rcases List.mem_append.mp he123 with he12 | he3m
    · rcases List.mem_append.mp he12 with he1m | he2m
      · obtain ⟨hs, hk, hdst⟩ := hbCheck_ok_shape h1 e he1m
        exact ⟨hs, by rw [hk]; decide, hdst⟩
      · obtain ⟨hs, hk, hdst⟩ := hbCheck_ok_shape h2 e he2m
        exact ⟨hs, by rw [hk]; decide, hdst⟩
    · obtain ⟨hs, hk, hdst⟩ := hbCheck_ok_shape h3 e he3m
      exact ⟨hs, by rw [hk]; decide, hdst⟩
  · obtain ⟨hs, hk, hdst⟩ := hbCheck_ok_shape h4 e he4m
    exact ⟨hs, by rw [hk]; decide, hdst⟩

theorem processResidue_mem_iff {dssp : List (ResKey × DsspRecord)}
    {km : List (Int × ResKey)} {modelKeys residues : List ResKey}
    {res : ResKey} {er : List SheetEdge}
    (h : processResidue dssp km modelKeys residues res = Except.ok er)
    {d : DsspRecord} (hd : alookup dssp res = some d)
    {kind : EdgeKind} {bond : HBondDesc} (hbk : bondOf d kind = some bond)
    (p : ResKey) :
    SheetEdge.mk res p kind ∈ er ↔
      (bond.2 < HB_ENERGY_LIMIT ∧ alookup km (d.seq_num + bond.1) = some p ∧
        p ∈ residues) := by
  unfold processResidue at h
  split at h
  next hnone => rw [hd] at hnone; exact absurd hnone (by simp)
  next d2 hd2 =>
  rw [hd] at hd2
  injection hd2 with hd2
  subst hd2
  split at h
  · exact absurd h (by simp)
  next h1 =>
  split at h
  · exact absurd h (by simp)
  next h2 =>
  split at h
  · exact absurd h (by simp)
  next h3 =>
  split at h
  · exact absurd h (by simp)
  next h4 =>
  injection h with h
  subst h
  cases kind with
  | pp_bond => exact absurd hbk (by simp [bondOf])
  | nh_to_o1 =>
    injection hbk with hbk
    subst hbk
    constructor
    · intro he
      rcases List.mem_append.mp he with he123 | he4m
      · rcases List.mem_append.mp he123 with he12 | he3m
        · rcases List.mem_append.mp he12 with he1m | he2m
          · exact (hbCheck_mem_iff h1 p).mp he1m
          · exact absurd (hbCheck_ok_shape h2 _ he2m).2.1 (by simp)
        · exact absurd (hbCheck_ok_shape h3 _ he3m).2.1 (by simp)
      · exact absurd (hbCheck_ok_shape h4 _ he4m).2.1 (by simp)
    · intro hc
      exact List.mem_append.mpr (Or.inl (List.mem_append.mpr (Or.inl
        (List.mem_append.mpr (Or.inl ((hbCheck_mem_iff h1 p).mpr hc))))))
  | o_to_nh1 =>
    injection hbk with hbk
    subst hbk
    constructor
    · intro he
      rcases List.mem_append.mp he with he123 | he4m
      · rcases List.mem_append.mp he123 with he12 | he3m
        · rcases List.mem_append.mp he12 with he1m | he2m
          · exact absurd (hbCheck_ok_shape h1 _ he1m).2.1 (by simp)
          · exact (hbCheck_mem_iff h2 p).mp he2m
        · exact absurd (hbCheck_ok_shape h3 _ he3m).2.1 (by simp)
      · exact absurd (hbCheck_ok_shape h4 _ he4m).2.1 (by simp)
    · intro hc
      exact List.mem_append.mpr (Or.inl (List.mem_append.mpr (Or.inl
        (List.mem_append.mpr (Or.inr ((hbCheck_mem_iff h2 p).mpr hc))))))
  | nh_to_o2 =>
    injection hbk with hbk
    subst hbk
    constructor
    · intro he
      rcases List.mem_append.mp he with he123 | he4m
      · rcases List.mem_append.mp he123 with he12 | he3m
        · rcases List.mem_append.mp he12 with he1m | he2m
          · exact absurd (hbCheck_ok_shape h1 _ he1m).2.1 (by simp)
          · exact absurd (hbCheck_ok_shape h2 _ he2m).2.1 (by simp)
        · exact (hbCheck_mem_iff h3 p).mp he3m
      · exact absurd (hbCheck_ok_shape h4 _ he4m).2.1 (by simp)
    · intro hc
      exact List.mem_append.mpr (Or.inl (List.mem_append.mpr (Or.inr
        ((hbCheck_mem_iff h3 p).mpr hc))))
  | o_to_nh2 =>
    injection hbk with hbk
    subst hbk
    constructor
    · intro he
      rcases List.mem_append.mp he with he123 | he4m
      · rcases List.mem_append.mp he123 with he12 | he3m
        · rcases List.mem_append.mp he12 with he1m | he2m
          · exact absurd (hbCheck_ok_shape h1 _ he1m).2.1 (by simp)
          · exact absurd (hbCheck_ok_shape h2 _ he2m).2.1 (by simp)
        · exact absurd (hbCheck_ok_shape h3 _ he3m).2.1 (by simp)
      · exact (hbCheck_mem_iff h4 p).mp he4m
    · intro hc
      exact List.mem_append.mpr (Or.inr ((hbCheck_mem_iff h4 p).mpr hc))

theorem processAll_mem_iff {dssp : List (ResKey × DsspRecord)}
    {km : List (Int × ResKey)} {modelKeys residues : List ResKey} :
    ∀ {rs : List ResKey} {es : List SheetEdge},
      processAll dssp km modelKeys residues rs = Except.ok es →
      ∀ e, e ∈ es ↔ ∃ r ∈ rs, ∃ er,
        processResidue dssp km modelKeys residues r = Except.ok er ∧ e ∈ er := by
  intro rs
  induction rs with
  | nil =>
    intro es h e
    injection h with h
    subst h
    simp
  | cons r rest ih =>
    intro es h e
    unfold processAll at h
    split at h
    · exact absurd h (by simp)
    next er her =>
    split at h
    · exact absurd h (by simp)
    next es2 hes2 =>
    injection h with h
    subst h
    constructor
    · intro he
      rcases List.mem_append.mp he with hee | hee
      · exact ⟨r, List.mem_cons_self r rest, er, her, hee⟩
      · obtain ⟨r2, hr2, er2, her2, hee2⟩ := (ih hes2 e).mp hee
        exact ⟨r2, List.mem_cons_of_mem r hr2, er2, her2, hee2⟩
    · rintro ⟨r2, hr2, er2, her2, hee2⟩
      rcases List.mem_cons.mp hr2 with rfl | hr2
      · rw [her] at her2
        injection her2 with her2
        subst her2
        exact List.mem_append.mpr (Or.inl hee2)
      · exact List.mem_append.mpr (Or.inr ((ih hes2 e).mpr ⟨r2, hr2, er2, her2, hee2⟩))

theorem processAll_ok_of_mem {dssp : List (ResKey × DsspRecord)}
    {km : List (Int × ResKey)} {modelKeys residues : List ResKey} :
    ∀ {rs : List ResKey} {es : List SheetEdge},
      processAll dssp km modelKeys residues rs = Except.ok es →
      ∀ r ∈ rs, ∃ er, processResidue dssp km modelKeys residues r = Except.ok er := by
  intro rs
  induction rs with
  | nil =>
    intro es _ r hr
    exact absurd hr (List.not_mem_nil r)
  | cons r0 rest ih =>
    intro es h r hr
    unfold processAll at h
    split at h
    · exact absurd h (by simp)
    next er her =>
    split at h
    · exact absurd h (by simp)
    next es2 hes2 =>
    rcases List.mem_cons.mp hr with rfl | hr
    · exact ⟨er, her⟩
    · exact ih hes2 r hr

theorem backboneEdges_kind (strands : List BetaStrand) :
    ∀ e ∈ backboneEdges strands, e.kind = EdgeKind.pp_bond := by
  intro e he
  unfold backboneEdges at he
  rcases List.mem_flatten.mp he with ⟨l, hl, hel⟩
  rcases List.mem_map.mp hl with ⟨s, _, rfl⟩
  rcases List.mem_map.mp hel with ⟨pq, _, rfl⟩
  rfl

theorem mem_consecutivePairs {β : Type} :
    ∀ {l : List β} {a b : β}, (a, b) ∈ consecutivePairs l → a ∈ l ∧ b ∈ l := by
  intro l
  induction l with
  | nil =>
    intro a b h
    exact absurd h (by simp [consecutivePairs])
  | cons x rest ih =>
    intro a b h
    cases rest with
    | nil => exact absurd h (by simp [consecutivePairs])
    | cons y rest2 =>
      simp only [consecutivePairs] at h
      rcases List.mem_cons.mp h with heq | hmm
      · injection heq with h1 h2
        subst h1
        subst h2
        exact ⟨List.mem_cons_self _ _, List.mem_cons_of_mem _ (List.mem_cons_self _ _)⟩
      · obtain ⟨h1, h2⟩ := ih hmm
        exact ⟨List.mem_cons_of_mem _ h1, List.mem_cons_of_mem _ h2⟩

theorem backboneEdges_mem_residues (strands : List BetaStrand) :
    ∀ e ∈ backboneEdges strands,
      e.src ∈ sheetResidues strands ∧ e.dst ∈ sheetResidues strands := by
  intro e he
  unfold backboneEdges at he
  rcases List.mem_flatten.mp he with ⟨l, hl, hel⟩
  rcases List.mem_map.mp hl with ⟨s, hs, rfl⟩
  rcases List.mem_map.mp hel with ⟨pq, hpq, rfl⟩
  obtain ⟨h1, h2⟩ := mem_consecutivePairs ((Prod.mk.eta (p := pq)) ▸ hpq)
  constructor
  · exact List.mem_flatten.mpr ⟨s.residue_list, List.mem_map.mpr ⟨s, hs, rfl⟩, h1⟩
  · exact List.mem_flatten.mpr ⟨s.residue_list, List.mem_map.mpr ⟨s, hs, rfl⟩, h2⟩

theorem bondOf_ne_pp {d : DsspRecord} {kind : EdgeKind} {bond : HBondDesc}
    (h : bondOf d kind = some bond) : kind ≠ EdgeKind.pp_bond := by
  cases kind
  · exact absurd h (by simp [bondOf])
  all_goals simp

/-- C7.  An edge of one of the four hydrogen-bond kinds, from a residue
`res` of the sheet to a partner `p`, belongs to the constructed sheet
graph exactly when the corresponding descriptor's energy is strictly
below `-1.5`, the sequence-number index resolves
`seq_num + offset` to `p`, and `p` belongs to the sheet's residue
union.  In particular an energy of exactly `-1.5` never yields an edge,
while `-1.51` (with an in-union partner) does. -/
theorem C7_hb_edge_iff
    (dssp : List (ResKey × DsspRecord)) (km : List (Int × ResKey))
    (modelKeys : List ResKey) (strands : List BetaStrand) (edges : List SheetEdge)
    (hok : init_sheet_graph dssp km modelKeys strands = Except.ok edges)
    (res : ResKey) (hres : res ∈ sheetResidues strands)
    (d : DsspRecord) (hd : alookup dssp res = some d)
    (kind : EdgeKind) (bond : HBondDesc) (hbk : bondOf d kind = some bond)
    (p : ResKey) :
    SheetEdge.mk res p kind ∈ edges ↔
      (bond.2 < HB_ENERGY_LIMIT ∧ alookup km (d.seq_num + bond.1) = some p ∧
        p ∈ sheetResidues strands) := by
  unfold init_sheet_graph at hok
  split at hok
  · exact absurd hok (by simp)
  next hb hhb =>
  injection hok with hok
  subst hok
  constructor
  · intro he
    rcases List.mem_append.mp he with hbb | hhbm
    · exact absurd (backboneEdges_kind strands _ hbb) (bondOf_ne_pp hbk)
    · obtain ⟨r2, hr2, er2, her2, hee⟩ := (processAll_mem_iff hhb _).mp hhbm
      have hsrc : res = r2 := (processResidue_ok_shape her2 _ hee).1
      subst hsrc
      exact (processResidue_mem_iff her2 hd hbk p).mp hee
  · intro hc
    obtain ⟨er, her⟩ := processAll_ok_of_mem hhb res hres
    exact List.mem_append.mpr (Or.inr ((processAll_mem_iff hhb _).mpr
      ⟨res, hres, er, her, (processResidue_mem_iff her hd hbk p).mpr hc⟩))

/-- A synthetic one-sheet instance: one strand of two residues with a
hydrogen bond of energy `-1.51` from the first residue (offset `+1`)
to the second. -/
def sheetStrands : List BetaStrand := [⟨[('A', 1), ('A', 2)], 'A'⟩]

def sheetDssp : List (ResKey × DsspRecord) :=
  [(('A', 1), ⟨1, 'E', ' ', ' ', 2, 0, 'A', (1, -151/100), (0, 0), (0, 0), (0, 0)⟩),
   (('A', 2), ⟨2, 'E', ' ', ' ', 1, 0, 'A', (0, 0), (0, 0), (0, 0), (0, 0)⟩)]

def sheetKm : List (Int × ResKey) := [(1, ('A', 1)), (2, ('A', 2))]

def sheetModelKeys : List ResKey := [('A', 1), ('A', 2)]

theorem sheetGraphEval :
    init_sheet_graph sheetDssp sheetKm sheetModelKeys sheetStrands =
      Except.ok [⟨('A', 1), ('A', 2), EdgeKind.pp_bond⟩,
                 ⟨('A', 1), ('A', 2), EdgeKind.nh_to_o1⟩] := by
  norm_num [init_sheet_graph, processAll, processResidue, hbCheck, sheetResidues,
    backboneEdges, consecutivePairs, HB_ENERGY_LIMIT, alookup, sheetDssp, sheetKm,
    sheetModelKeys, sheetStrands]

/-- C7, witness: on the synthetic sheet, the `-1.51`-energy descriptor
of residue `('A', 1)` produces its typed edge, as characterized by the
theorem. -/
theorem C7_hb_edge_iff_witness :
    (init_sheet_graph sheetDssp sheetKm sheetModelKeys sheetStrands =
      Except.ok [⟨('A', 1), ('A', 2), EdgeKind.pp_bond⟩,
                 ⟨('A', 1), ('A', 2), EdgeKind.nh_to_o1⟩]) ∧
    ('A', 1) ∈ sheetResidues sheetStrands ∧
    (SheetEdge.mk ('A', 1) ('A', 2) EdgeKind.nh_to_o1 ∈
        [⟨('A', 1), ('A', 2), EdgeKind.pp_bond⟩,
         ⟨('A', 1), ('A', 2), EdgeKind.nh_to_o1⟩] ↔
      (((1 : Int), (-151/100 : ℚ)).2 < HB_ENERGY_LIMIT ∧
        alookup sheetKm ((1 : Int) + ((1 : Int), (-151/100 : ℚ)).1) = some ('A', 2) ∧
        ('A', 2) ∈ sheetResidues sheetStrands)) :=
  ⟨sheetGraphEval, by decide,
    C7_hb_edge_iff sheetDssp sheetKm sheetModelKeys sheetStrands _ sheetGraphEval
      ('A', 1) (by decide)
      ⟨1, 'E', ' ', ' ', 2, 0, 'A', (1, -151/100), (0, 0), (0, 0), (0, 0)⟩ rfl
      EdgeKind.nh_to_o1 (1, -151/100) rfl ('A', 2)⟩

theorem consecutivePairs_endpoint {β : Type} :
    ∀ {l : List β}, 2 ≤ l.length → ∀ {a}, a ∈ l →
      (∃ b, (a, b) ∈ consecutivePairs l) ∨ (∃ b, (b, a) ∈ consecutivePairs l) := by
  intro l
  induction l with
  | nil => intro h; simp at h
  | cons x rest ih =>
    intro h2 a ha
    cases rest with
    | nil => simp at h2
    | cons y rest2 =>
      rcases List.mem_cons.mp ha with rfl | ha2
      · exact Or.inl ⟨y, by simp [consecutivePairs]⟩
      · cases rest2 with
        | nil =>
          rcases List.mem_singleton.mp ha2 with rfl
          exact Or.inr ⟨x, by simp [consecutivePairs]⟩
        | cons z rest3 =>
          have h2b : 2 ≤ (y :: z :: rest3).length := by simp
          rcases ih h2b ha2 with ⟨b, hb⟩ | ⟨b, hb⟩
          · exact Or.inl ⟨b, List.mem_cons_of_mem _ hb⟩
          · exact Or.inr ⟨b, List.mem_cons_of_mem _ hb⟩

/-- C8, amended.  The node set of the constructed sheet graph is always
CONTAINED in the sheet's residue union, and it EQUALS the union when
every strand of the sheet has at least two residues.  (A strand of a
single residue contributes no backbone edge, so its residue becomes a
node only if some hydrogen-bond edge reaches it; the claim's unqualified
equality fails on such strands.) -/
theorem C8_nodes_of_sheet_graph
    (dssp : List (ResKey × DsspRecord)) (km : List (Int × ResKey))
    (modelKeys : List ResKey) (strands : List BetaStrand) (edges : List SheetEdge)
    (hok : init_sheet_graph dssp km modelKeys strands = Except.ok edges) :
    (∀ n ∈ nodesOf edges, n ∈ sheetResidues strands) ∧
    ((∀ s ∈ strands, 2 ≤ s.residue_list.length) →
      ∀ r ∈ sheetResidues strands, r ∈ nodesOf edges) := by
  unfold init_sheet_graph at hok
  split at hok
  · exact absurd hok (by simp)
  next hb hhb =>
  injection hok with hok
  subst hok
  constructor
  · intro n hn
    unfold nodesOf at hn
    rcases List.mem_flatten.mp hn with ⟨l, hl, hnl⟩
    rcases List.mem_map.mp hl with ⟨e, he, rfl⟩
    have hsd : e.src ∈ sheetResidues strands ∧ e.dst ∈ sheetResidues strands := by
      rcases List.mem_append.mp he with hbb | hhbm
      · exact backboneEdges_mem_residues strands e hbb
      · obtain ⟨r2, hr2, er2, her2, hee⟩ := (processAll_mem_iff hhb e).mp hhbm
        obtain ⟨hs, -, hdst⟩ := processResidue_ok_shape her2 e hee
        exact ⟨by rw [hs]; exact hr2, hdst⟩
    rcases List.mem_cons.mp hnl with rfl | hnl2
    · exact hsd.1
    · rcases List.mem_singleton.mp hnl2 with rfl
      exact hsd.2
  · intro hlen r hr
    have hr2 := hr
    unfold sheetResidues at hr2
    rcases List.mem_flatten.mp hr2 with ⟨l, hl, hrl⟩
    rcases List.mem_map.mp hl with ⟨s, hs, rfl⟩
    have hedge : ∃ e ∈ backboneEdges strands, e.src = r ∨ e.dst = r := by
      rcases consecutivePairs_endpoint (hlen s hs) hrl with ⟨b, hp⟩ | ⟨b, hp⟩
      · refine ⟨⟨r, b, EdgeKind.pp_bond⟩, ?_, Or.inl rfl⟩
        unfold backboneEdges
        exact List.mem_flatten.mpr
          ⟨_, List.mem_map.mpr ⟨s, hs, rfl⟩, List.mem_map.mpr ⟨(r, b), hp, rfl⟩⟩
      · refine ⟨⟨b, r, EdgeKind.pp_bond⟩, ?_, Or.inr rfl⟩
        unfold backboneEdges
        exact List.mem_flatten.mpr
          ⟨_, List.mem_map.mpr ⟨s, hs, rfl⟩, List.mem_map.mpr ⟨(b, r), hp, rfl⟩⟩
    obtain ⟨e, he, hsrc⟩ := hedge
    unfold nodesOf
    refine List.mem_flatten.mpr
      ⟨[e.src, e.dst], List.mem_map.mpr ⟨e, List.mem_append.mpr (Or.inl he), rfl⟩, ?_⟩
    rcases hsrc with rfl | rfl
    · exact List.mem_cons_self _ _
    · exact List.mem_cons_of_mem _ (List.mem_cons_self _ _)

/-- C8, counterexample.  A sheet with a single one-residue strand (an
isolated beta bridge) and no qualifying hydrogen bond: the builder
succeeds with an EMPTY edge list, so the graph has no nodes at all,
while the claim says its node set equals the strand-residue union
`[('A', 9)]`. -/
theorem C8_single_residue_strand_counterexample :
    init_sheet_graph
      [(('A', 9), ⟨1, 'B', ' ', ' ', 0, 0, 'B', (0, 0), (0, 0), (0, 0), (0, 0)⟩)]
      [] [('A', 9)] [⟨[('A', 9)], 'B'⟩] = Except.ok [] ∧
    ('A', 9) ∈ sheetResidues [⟨[('A', 9)], 'B'⟩] ∧
    nodesOf [] = [] := by
  refine ⟨?_, by decide, rfl⟩
  norm_num [init_sheet_graph, processAll, processResidue, hbCheck, sheetResidues,
    backboneEdges, consecutivePairs, HB_ENERGY_LIMIT, alookup]

/-- C8, witness for the amended theorem: on the synthetic two-residue
sheet the node set equals the residue union. -/
theorem C8_nodes_of_sheet_graph_witness :
    (init_sheet_graph sheetDssp sheetKm sheetModelKeys sheetStrands =
      Except.ok [⟨('A', 1), ('A', 2), EdgeKind.pp_bond⟩,
                 ⟨('A', 1), ('A', 2), EdgeKind.nh_to_o1⟩]) ∧
    ((∀ n ∈ nodesOf [⟨('A', 1), ('A', 2), EdgeKind.pp_bond⟩,
                     ⟨('A', 1), ('A', 2), EdgeKind.nh_to_o1⟩],
        n ∈ sheetResidues sheetStrands) ∧
      ((∀ s ∈ sheetStrands, 2 ≤ s.residue_list.length) →
        ∀ r ∈ sheetResidues sheetStrands,
          r ∈ nodesOf [⟨('A', 1), ('A', 2), EdgeKind.pp_bond⟩,
                       ⟨('A', 1), ('A', 2), EdgeKind.nh_to_o1⟩])) :=
  ⟨sheetGraphEval,
    C8_nodes_of_sheet_graph sheetDssp sheetKm sheetModelKeys sheetStrands _ sheetGraphEval⟩

/-! ## FrameMath: `normalize`, `get_residue_stub_matrix` (geometry.py
lines 96-118), and the Euler-angle conversions (lines 120-147)

Coordinates and angles are real numbers; `numpy` vectors of length 3
and 3×3 matrices are embedded as explicit component structures. -/

/-- A 3-vector of real coordinates. -/
@[ext]
structure V3 where
  x : ℝ
  y : ℝ
  z : ℝ

def V3.zero : V3 := ⟨0, 0, 0⟩

def V3.sub (a b : V3) : V3 := ⟨a.x - b.x, a.y - b.y, a.z - b.z⟩

def V3.dot (a b : V3) : ℝ := a.x * b.x + a.y * b.y + a.z * b.z

/-- `np.cross` on 3-vectors. -/
def V3.cross (a b : V3) : V3 :=
  ⟨a.y * b.z - a.z * b.y, a.z * b.x - a.x * b.z, a.x * b.y - a.y * b.x⟩

/-- Componentwise division by a scalar (`v / norm` in the source). -/
noncomputable def V3.div (v : V3) (s : ℝ) : V3 := ⟨v.x / s, v.y / s, v.z / s⟩

def V3.smul (s : ℝ) (v : V3) : V3 := ⟨s * v.x, s * v.y, s * v.z⟩

/-- `np.linalg.norm` of a 3-vector. -/
noncomputable def V3.norm (v : V3) : ℝ := Real.sqrt (V3.dot v v)

namespace geometry

/-- geometry.py lines 96-101, `normalize`: return `v` unchanged when
its norm is exactly zero, otherwise divide by the norm.  (The
equality test on a real number needs the classical decidability
instance.) -/
noncomputable def normalize (v : V3) : V3 :=
  letI := Classical.propDecidable (V3.norm v = 0)
  if V3.norm v = 0 then v else V3.div v (V3.norm v)

end geometry

/-- A 3×3 real matrix, row-major components. -/
@[ext]
structure Mat3 where
  r00 : ℝ
  r01 : ℝ
  r02 : ℝ
  r10 : ℝ
  r11 : ℝ
  r12 : ℝ
  r20 : ℝ
  r21 : ℝ
  r22 : ℝ

def Mat3.col0 (m : Mat3) : V3 := ⟨m.r00, m.r10, m.r20⟩

def Mat3.col1 (m : Mat3) : V3 := ⟨m.r01, m.r11, m.r21⟩

def Mat3.col2 (m : Mat3) : V3 := ⟨m.r02, m.r12, m.r22⟩

def Mat3.transpose (m : Mat3) : Mat3 :=
  ⟨m.r00, m.r10, m.r20, m.r01, m.r11, m.r21, m.r02, m.r12, m.r22⟩

def Mat3.mul (a b : Mat3) : Mat3 :=
  ⟨a.r00 * b.r00 + a.r01 * b.r10 + a.r02 * b.r20,
   a.r00 * b.r01 + a.r01 * b.r11 + a.r02 * b.r21,
   a.r00 * b.r02 + a.r01 * b.r12 + a.r02 * b.r22,
   a.r10 * b.r00 + a.r11 * b.r10 + a.r12 * b.r20,
   a.r10 * b.r01 + a.r11 * b.r11 + a.r12 * b.r21,
   a.r10 * b.r02 + a.r11 * b.r12 + a.r12 * b.r22,
   a.r20 * b.r00 + a.r21 * b.r10 + a.r22 * b.r20,
   a.r20 * b.r01 + a.r21 * b.r11 + a.r22 * b.r21,
   a.r20 * b.r02 + a.r21 * b.r12 + a.r22 * b.r22⟩

def Mat3.id : Mat3 := ⟨1, 0, 0, 0, 1, 0, 0, 0, 1⟩

def Mat3.det (m : Mat3) : ℝ :=
  m.r00 * (m.r11 * m.r22 - m.r12 * m.r21) -
    m.r01 * (m.r10 * m.r22 - m.r12 * m.r20) +
    m.r02 * (m.r10 * m.r21 - m.r11 * m.r20)

/-- geometry.py line 114: `x = normalize(n - ca)`. -/
noncomputable def stub_x (n ca : V3) : V3 := geometry.normalize (V3.sub n ca)

/-- geometry.py line 115: `z = normalize(np.cross(x, c - ca))`. -/
noncomputable def stub_z (n ca c : V3) : V3 :=
  geometry.normalize (V3.cross (stub_x n ca) (V3.sub c ca))

/-- geometry.py line 116: `y = np.cross(z, x)`. -/
noncomputable def stub_y (n ca c : V3) : V3 :=
  V3.cross (stub_z n ca c) (stub_x n ca)

/-- geometry.py lines 103-118, `get_residue_stub_matrix`: the matrix
`np.matrix([x, y, z]).T` — columns `x`, `y`, `z` — together with the CA
coordinate as origin. -/
noncomputable def get_residue_stub_matrix (n ca c : V3) : Mat3 × V3 :=
  ((⟨(stub_x n ca).x, (stub_y n ca c).x, (stub_z n ca c).x,
     (stub_x n ca).y, (stub_y n ca c).y, (stub_z n ca c).y,
     (stub_x n ca).z, (stub_y n ca c).z, (stub_z n ca c).z⟩ : Mat3), ca)

theorem V3.dot_self_nonneg (v : V3) : 0 ≤ V3.dot v v := by
  unfold V3.dot
  nlinarith [mul_self_nonneg v.x, mul_self_nonneg v.y, mul_self_nonneg v.z]

theorem V3.dot_self_eq_zero_iff (v : V3) : V3.dot v v = 0 ↔ v = V3.zero := by
  constructor
  · intro h
    unfold V3.dot at h
    ext
    · show v.x = (0 : ℝ)
      nlinarith [mul_self_nonneg v.x, mul_self_nonneg v.y, mul_self_nonneg v.z]
    · show v.y = (0 : ℝ)
      nlinarith [mul_self_nonneg v.x, mul_self_nonneg v.y, mul_self_nonneg v.z]
    · show v.z = (0 : ℝ)
      nlinarith [mul_self_nonneg v.x, mul_self_nonneg v.y, mul_self_nonneg v.z]
  · rintro rfl
    simp [V3.dot, V3.zero]

theorem V3.dot_self_pos (v : V3) (h : v ≠ V3.zero) : 0 < V3.dot v v :=
  lt_of_le_of_ne (V3.dot_self_nonneg v)
    (fun he => h ((V3.dot_self_eq_zero_iff v).mp he.symm))

theorem V3.norm_pos (v : V3) (h : v ≠ V3.zero) : 0 < V3.norm v :=
  Real.sqrt_pos.mpr (V3.dot_self_pos v h)

theorem V3.norm_mul_self (v : V3) : V3.norm v * V3.norm v = V3.dot v v :=
  Real.mul_self_sqrt (V3.dot_self_nonneg v)

theorem geometry.normalize_of_ne (v : V3) (h : v ≠ V3.zero) :
    geometry.normalize v = V3.div v (V3.norm v) := by
  unfold geometry.normalize
  exact if_neg (V3.norm_pos v h).ne'

theorem V3.dot_div_div (a b : V3) (s t : ℝ) :
    V3.dot (V3.div a s) (V3.div b t) = V3.dot a b / (s * t) := by
  simp [V3.dot, V3.div]
  ring

theorem V3.dot_div_right (a b : V3) (s : ℝ) :
    V3.dot a (V3.div b s) = V3.dot a b / s := by
  simp [V3.dot, V3.div]
  ring

theorem geometry.dot_normalize_self (v : V3) (h : v ≠ V3.zero) :
    V3.dot (geometry.normalize v) (geometry.normalize v) = 1 := by
  rw [geometry.normalize_of_ne v h, V3.dot_div_div, V3.norm_mul_self]
  exact div_self (V3.dot_self_pos v h).ne'

theorem geometry.norm_normalize (v : V3) (h : v ≠ V3.zero) :
    V3.norm (geometry.normalize v) = 1 := by
  unfold V3.norm
  rw [geometry.dot_normalize_self v h]
  exact Real.sqrt_one

theorem V3.cross_div_left (a : V3) (s : ℝ) (b : V3) :
    V3.cross (V3.div a s) b = V3.div (V3.cross a b) s := by
  ext <;> simp [V3.cross, V3.div] <;> ring

theorem V3.div_ne_zero_of_ne (a : V3) (s : ℝ) (ha : a ≠ V3.zero) (hs : s ≠ 0) :
    V3.div a s ≠ V3.zero := by
  intro h
  apply ha
  ext
  · have hx := congrArg V3.x h
    simp [V3.div, V3.zero] at hx ⊢
    rcases hx with hx | hx
    · exact hx
    · exact absurd hx hs
  · have hy := congrArg V3.y h
    simp [V3.div, V3.zero] at hy ⊢
    rcases hy with hy | hy
    · exact hy
    · exact absurd hy hs
  · have hz := congrArg V3.z h
    simp [V3.div, V3.zero] at hz ⊢
    rcases hz with hz | hz
    · exact hz
    · exact absurd hz hs

theorem V3.dot_cross_left (a b : V3) : V3.dot a (V3.cross a b) = 0 := by
  simp [V3.dot, V3.cross]
  ring

theorem V3.dot_cross_self_left (a b : V3) : V3.dot (V3.cross a b) a = 0 := by
  simp [V3.dot, V3.cross]
  ring

theorem V3.dot_cross_same_right (a b : V3) : V3.dot a (V3.cross b a) = 0 := by
  simp [V3.dot, V3.cross]
  ring

theorem V3.dot_comm (a b : V3) : V3.dot a b = V3.dot b a := by
  simp [V3.dot]
  ring

theorem V3.dot_cross_self (a b : V3) :
    V3.dot (V3.cross a b) (V3.cross a b) =
      V3.dot a a * V3.dot b b - V3.dot a b * V3.dot a b := by
  simp [V3.dot, V3.cross]
  ring

theorem V3.cross_cross_same (a b : V3) :
    V3.cross a (V3.cross b a) =
      V3.sub (V3.smul (V3.dot a a) b) (V3.smul (V3.dot a b) a) := by
  ext <;> simp [V3.cross, V3.sub, V3.smul, V3.dot] <;> ring

/-- C4.  For N, CA, C with `N - CA` nonzero and `N`, `CA`, `C` not
collinear (nonzero cross product), the basis returned by
`get_residue_stub_matrix` has columns `x = normalize(N - CA)`,
`z = normalize(x × (C - CA))`, `y = z × x`; the three columns are
pairwise orthogonal unit vectors forming a right-handed frame
(`x × y = z`), and the returned origin is the CA coordinate. -/
theorem C4_stub_frame_orthonormal (n ca c : V3)
    (hne : V3.sub n ca ≠ V3.zero)
    (hcl : V3.cross (V3.sub n ca) (V3.sub c ca) ≠ V3.zero) :
    (get_residue_stub_matrix n ca c).2 = ca ∧
    Mat3.col0 (get_residue_stub_matrix n ca c).1 = stub_x n ca ∧
    Mat3.col1 (get_residue_stub_matrix n ca c).1 = stub_y n ca c ∧
    Mat3.col2 (get_residue_stub_matrix n ca c).1 = stub_z n ca c ∧
    V3.dot (stub_x n ca) (stub_y n ca c) = 0 ∧
    V3.dot (stub_y n ca c) (stub_z n ca c) = 0 ∧
    V3.dot (stub_x n ca) (stub_z n ca c) = 0 ∧
    V3.norm (stub_x n ca) = 1 ∧
    V3.norm (stub_y n ca c) = 1 ∧
    V3.norm (stub_z n ca c) = 1 ∧
    V3.cross (stub_x n ca) (stub_y n ca c) = stub_z n ca c := by
  have hxdot : V3.dot (stub_x n ca) (stub_x n ca) = 1 :=
    geometry.dot_normalize_self _ hne
  have hnormu : V3.norm (V3.sub n ca) ≠ 0 := (V3.norm_pos _ hne).ne'
  have hcx : V3.cross (stub_x n ca) (V3.sub c ca) =
      V3.div (V3.cross (V3.sub n ca) (V3.sub c ca)) (V3.norm (V3.sub n ca)) := by
    show V3.cross (geometry.normalize (V3.sub n ca)) (V3.sub c ca) = _
    rw [geometry.normalize_of_ne _ hne]
    exact V3.cross_div_left _ _ _
  have hcxne : V3.cross (stub_x n ca) (V3.sub c ca) ≠ V3.zero := by
    rw [hcx]
    exact V3.div_ne_zero_of_ne _ _ hcl hnormu
  have hzdot : V3.dot (stub_z n ca c) (stub_z n ca c) = 1 :=
    geometry.dot_normalize_self _ hcxne
  have hxz : V3.dot (stub_x n ca) (stub_z n ca c) = 0 := by
    show V3.dot (stub_x n ca)
      (geometry.normalize (V3.cross (stub_x n ca) (V3.sub c ca))) = 0
    rw [geometry.normalize_of_ne _ hcxne, V3.dot_div_right, V3.dot_cross_left]
    simp
  have hxy : V3.dot (stub_x n ca) (stub_y n ca c) = 0 :=
    V3.dot_cross_same_right (stub_x n ca) (stub_z n ca c)
  have hyz : V3.dot (stub_y n ca c) (stub_z n ca c) = 0 :=
    V3.dot_cross_self_left (stub_z n ca c) (stub_x n ca)
  have hydot : V3.dot (stub_y n ca c) (stub_y n ca c) = 1 := by
    show V3.dot (V3.cross (stub_z n ca c) (stub_x n ca))
      (V3.cross (stub_z n ca c) (stub_x n ca)) = 1
    rw [V3.dot_cross_self, hzdot, hxdot]
    rw [show V3.dot (stub_z n ca c) (stub_x n ca) = 0 from
      (V3.dot_comm _ _).trans hxz]
    ring
  have hrh : V3.cross (stub_x n ca) (stub_y n ca c) = stub_z n ca c := by
    show V3.cross (stub_x n ca) (V3.cross (stub_z n ca c) (stub_x n ca)) = _
    rw [V3.cross_cross_same, hxdot, hxz]
    ext <;> simp [V3.sub, V3.smul]
  refine ⟨rfl, rfl, rfl, rfl, hxy, hyz, hxz, ?_, ?_, ?_, hrh⟩
  · unfold V3.norm
    rw [hxdot]
    exact Real.sqrt_one
  · unfold V3.norm
    rw [hydot]
    exact Real.sqrt_one
  · unfold V3.norm
    rw [hzdot]
    exact Real.sqrt_one

/-- C4, witness: the frame built from `N = (1,0,0)`, `CA = (0,0,0)`,
`C = (0,1,0)`. -/
theorem C4_stub_frame_orthonormal_witness :
    (V3.sub ⟨1, 0, 0⟩ ⟨0, 0, 0⟩ ≠ V3.zero ∧
     V3.cross (V3.sub ⟨1, 0, 0⟩ ⟨0, 0, 0⟩) (V3.sub ⟨0, 1, 0⟩ ⟨0, 0, 0⟩) ≠ V3.zero) ∧
    ((get_residue_stub_matrix ⟨1, 0, 0⟩ ⟨0, 0, 0⟩ ⟨0, 1, 0⟩).2 = ⟨0, 0, 0⟩ ∧
    Mat3.col0 (get_residue_stub_matrix ⟨1, 0, 0⟩ ⟨0, 0, 0⟩ ⟨0, 1, 0⟩).1 =
      stub_x ⟨1, 0, 0⟩ ⟨0, 0, 0⟩ ∧
    Mat3.col1 (get_residue_stub_matrix ⟨1, 0, 0⟩ ⟨0, 0, 0⟩ ⟨0, 1, 0⟩).1 =
      stub_y ⟨1, 0, 0⟩ ⟨0, 0, 0⟩ ⟨0, 1, 0⟩ ∧
    Mat3.col2 (get_residue_stub_matrix ⟨1, 0, 0⟩ ⟨0, 0, 0⟩ ⟨0, 1, 0⟩).1 =
      stub_z ⟨1, 0, 0⟩ ⟨0, 0, 0⟩ ⟨0, 1, 0⟩ ∧
    V3.dot (stub_x ⟨1, 0, 0⟩ ⟨0, 0, 0⟩) (stub_y ⟨1, 0, 0⟩ ⟨0, 0, 0⟩ ⟨0, 1, 0⟩) = 0 ∧
    V3.dot (stub_y ⟨1, 0, 0⟩ ⟨0, 0, 0⟩ ⟨0, 1, 0⟩)
      (stub_z ⟨1, 0, 0⟩ ⟨0, 0, 0⟩ ⟨0, 1, 0⟩) = 0 ∧
    V3.dot (stub_x ⟨1, 0, 0⟩ ⟨0, 0, 0⟩) (stub_z ⟨1, 0, 0⟩ ⟨0, 0, 0⟩ ⟨0, 1, 0⟩) = 0 ∧
    V3.norm (stub_x ⟨1, 0, 0⟩ ⟨0, 0, 0⟩) = 1 ∧
    V3.norm (stub_y ⟨1, 0, 0⟩ ⟨0, 0, 0⟩ ⟨0, 1, 0⟩) = 1 ∧
    V3.norm (stub_z ⟨1, 0, 0⟩ ⟨0, 0, 0⟩ ⟨0, 1, 0⟩) = 1 ∧
    V3.cross (stub_x ⟨1, 0, 0⟩ ⟨0, 0, 0⟩) (stub_y ⟨1, 0, 0⟩ ⟨0, 0, 0⟩ ⟨0, 1, 0⟩) =
      stub_z ⟨1, 0, 0⟩ ⟨0, 0, 0⟩ ⟨0, 1, 0⟩) :=
  ⟨⟨by
      intro h
      have hx := congrArg V3.x h
      norm_num [V3.sub, V3.zero] at hx,
    by
      intro h
      have hz := congrArg V3.z h
      norm_num [V3.cross, V3.sub, V3.zero] at hz⟩,
   C4_stub_frame_orthonormal ⟨1, 0, 0⟩ ⟨0, 0, 0⟩ ⟨0, 1, 0⟩
     (by
       intro h
       have hx := congrArg V3.x h
       norm_num [V3.sub, V3.zero] at hx)
     (by
       intro h
       have hz := congrArg V3.z h
       norm_num [V3.cross, V3.sub, V3.zero] at hz)⟩

open Classical in
/-- Modelled from the spec: `np.arctan2` (geometry.py lines 122-124) is
an external collaborator; §4.1 of the spec fixes the standard
convention: the angle of the point `(x, y)`, i.e. `arctan (y / x)`
corrected by the quadrant.  (The branch values on the axes follow the
numpy convention; only the gimbal-lock-free branches matter to the
claims.) -/
noncomputable def arctan2 (y x : ℝ) : ℝ :=
  if 0 < x then Real.arctan (y / x)
  else if x < 0 then
    (if 0 ≤ y then Real.arctan (y / x) + Real.pi else Real.arctan (y / x) - Real.pi)
  else
    (if 0 < y then Real.pi / 2 else if y < 0 then -(Real.pi / 2) else 0)

theorem sqrt_one_add_div_sq (y x : ℝ) (hx : x ≠ 0) :
    Real.sqrt (1 + (y / x) ^ 2) = Real.sqrt (x ^ 2 + y ^ 2) / |x| := by
  have key : 1 + (y / x) ^ 2 = (x ^ 2 + y ^ 2) / x ^ 2 := by
    field_simp
  rw [key, Real.sqrt_div (by positivity) _, Real.sqrt_sq_eq_abs]

theorem cos_sin_arctan2 (y x : ℝ) (h : ¬(x = 0 ∧ y = 0)) :
    Real.cos (arctan2 y x) = x / Real.sqrt (x ^ 2 + y ^ 2) ∧
    Real.sin (arctan2 y x) = y / Real.sqrt (x ^ 2 + y ^ 2) := by
  have hS : (0 : ℝ) ≤ x ^ 2 + y ^ 2 := by positivity
  rcases lt_trichotomy x 0 with hx | hx | hx
  · -- x < 0
    have hx0 : x ≠ 0 := hx.ne
    have hSpos : (0 : ℝ) < x ^ 2 + y ^ 2 := by positivity
    have hs : (0 : ℝ) < Real.sqrt (x ^ 2 + y ^ 2) := Real.sqrt_pos.mpr hSpos
    have habs : |x| = -x := abs_of_neg hx
    have hsq := sqrt_one_add_div_sq y x hx0
    have hcos : Real.cos (arctan2 y x) = -Real.cos (Real.arctan (y / x)) := by
      unfold arctan2
      rw [if_neg (by linarith), if_pos hx]
      by_cases hy : 0 ≤ y
      · rw [if_pos hy]
        simp
      · rw [if_neg hy]
        simp [Real.cos_sub]
    have hsin : Real.sin (arctan2 y x) = -Real.sin (Real.arctan (y / x)) := by
      unfold arctan2
      rw [if_neg (by linarith), if_pos hx]
      by_cases hy : 0 ≤ y
      · rw [if_pos hy]
        simp
      · rw [if_neg hy]
        simp [Real.sin_sub]
    constructor
    · rw [hcos, Real.cos_arctan, hsq, habs]
      field_simp
    · rw [hsin, Real.sin_arctan, hsq, habs]
      field_simp
      ring
  · -- x = 0
    subst hx
    have hy0 : y ≠ 0 := fun hy => h ⟨rfl, hy⟩
    have hsy : Real.sqrt ((0 : ℝ) ^ 2 + y ^ 2) = |y| := by
      rw [show (0 : ℝ) ^ 2 + y ^ 2 = y ^ 2 by ring, Real.sqrt_sq_eq_abs]
    rcases lt_or_gt_of_ne hy0 with hy | hy
    · have : arctan2 y 0 = -(Real.pi / 2) := by
        unfold arctan2
        rw [if_neg (lt_irrefl 0), if_neg (lt_irrefl 0), if_neg (by linarith), if_pos hy]
      rw [this]
      constructor
      · simp [hsy]
      · rw [hsy, abs_of_neg hy]
        simp
        field_simp
    · have : arctan2 y 0 = Real.pi / 2 := by
        unfold arctan2
        rw [if_neg (lt_irrefl 0), if_neg (lt_irrefl 0), if_pos hy]
      rw [this]
      constructor
      · simp [hsy]
      · rw [hsy, abs_of_pos hy]
        simp
        field_simp
  · -- 0 < x
    have hx0 : x ≠ 0 := hx.ne'
    have hSpos : (0 : ℝ) < x ^ 2 + y ^ 2 := by positivity
    have hs : (0 : ℝ) < Real.sqrt (x ^ 2 + y ^ 2) := Real.sqrt_pos.mpr hSpos
    have habs : |x| = x := abs_of_pos hx
    have hsq := sqrt_one_add_div_sq y x hx0
    have harc : arctan2 y x = Real.arctan (y / x) := by
      unfold arctan2
      rw [if_pos hx]
    constructor
    · rw [harc, Real.cos_arctan, hsq, habs]
      field_simp
    · rw [harc, Real.sin_arctan, hsq, habs]
      field_simp

/-- geometry.py lines 120-126, `rotation_matrix_to_euler_angles`:
`(atan2(m[2][1], m[2][2]), atan2(-m[2][0], sqrt(m[2][1]^2 + m[2][2]^2)),
atan2(m[1][0], m[0][0]))`. -/
noncomputable def rotation_matrix_to_euler_angles (m : Mat3) : ℝ × ℝ × ℝ :=
  (arctan2 m.r21 m.r22,
   arctan2 (-m.r20) (Real.sqrt (m.r21 ^ 2 + m.r22 ^ 2)),
   arctan2 m.r10 m.r00)

/-- geometry.py lines 128-147, `euler_angles_to_rotation_matrix`: the
product `Z · (Y · X)` of the three axis rotations. -/
noncomputable def euler_angles_to_rotation_matrix (tx ty tz : ℝ) : Mat3 :=
  Mat3.mul
    (⟨Real.cos tz, -Real.sin tz, 0,
      Real.sin tz, Real.cos tz, 0,
      0, 0, 1⟩ : Mat3)
    (Mat3.mul
      (⟨Real.cos ty, 0, Real.sin ty,
        0, 1, 0,
        -Real.sin ty, 0, Real.cos ty⟩ : Mat3)
      (⟨1, 0, 0,
        0, Real.cos tx, -Real.sin tx,
        0, Real.sin tx, Real.cos tx⟩ : Mat3))

set_option maxHeartbeats 1000000 in
/-- C3.  For every rotation matrix `m` (orthogonal with determinant 1)
that is not at a gimbal-lock configuration (`m[2][1]` and `m[2][2]` not
both zero), composing the three Euler angles extracted by
`rotation_matrix_to_euler_angles` back through
`euler_angles_to_rotation_matrix` (the composition `Rz · Ry · Rx`)
returns `m` itself, elementwise and exactly over the reals. -/
theorem C3_euler_round_trip (m : Mat3)
    (ho1 : Mat3.mul m (Mat3.transpose m) = Mat3.id)
    (ho2 : Mat3.mul (Mat3.transpose m) m = Mat3.id)
    (hdet : Mat3.det m = 1)
    (hgl : ¬(m.r21 = 0 ∧ m.r22 = 0)) :
    euler_angles_to_rotation_matrix
      (rotation_matrix_to_euler_angles m).1
      (rotation_matrix_to_euler_angles m).2.1
      (rotation_matrix_to_euler_angles m).2.2 = m := by
  obtain ⟨a, b, c, d, e, f, g, hh, i⟩ := m
  simp only [Mat3.mul, Mat3.transpose, Mat3.id, Mat3.mk.injEq] at ho1 ho2
  simp only [Mat3.det] at hdet
  simp only at hgl
  obtain ⟨R1, R12, R13, R12b, R2, R23, R13b, R23b, R3⟩ := ho1
  obtain ⟨C1, C12, C13, C12b, C2, C23, C13b, C23b, C3⟩ := ho2
  -- the squared norm of the bottom row's tail is positive away from gimbal lock
  have hSpos : (0 : ℝ) < hh ^ 2 + i ^ 2 := by
    rcases not_and_or.mp hgl with hne | hne
    · linarith [pow_two_pos_of_ne_zero hne, sq_nonneg i]
    · linarith [pow_two_pos_of_ne_zero hne, sq_nonneg hh]
  set s := Real.sqrt (hh ^ 2 + i ^ 2) with hs_def
  have hspos : 0 < s := Real.sqrt_pos.mpr hSpos
  have hs2 : s ^ 2 = hh ^ 2 + i ^ 2 := Real.sq_sqrt hSpos.le
  -- cofactor identities: the first two columns are cross products of the others
  have key : (a - (e * i - hh * f)) ^ 2 + (d - (hh * c - b * i)) ^ 2 +
      (g - (b * f - e * c)) ^ 2 = 0 := by
    linear_combination C1 + (c ^ 2 + f ^ 2 + i ^ 2) * C2 + C3 -
      (b * c + e * f + hh * i) * C23 - 2 * hdet
  have cof1 : a = e * i - hh * f := by
    have s1 : (a - (e * i - hh * f)) ^ 2 = 0 := by
      linarith [key, sq_nonneg (a - (e * i - hh * f)),
        sq_nonneg (d - (hh * c - b * i)), sq_nonneg (g - (b * f - e * c))]
    have h0 := (pow_eq_zero_iff (two_ne_zero)).mp s1
    linarith [sub_eq_zero.mp h0]
  have cof2 : d = hh * c - b * i := by
    have s1 : (d - (hh * c - b * i)) ^ 2 = 0 := by
      linarith [key, sq_nonneg (a - (e * i - hh * f)),
        sq_nonneg (d - (hh * c - b * i)), sq_nonneg (g - (b * f - e * c))]
    have h0 := (pow_eq_zero_iff (two_ne_zero)).mp s1
    linarith [sub_eq_zero.mp h0]
  -- the three angles
  have hglx : ¬(i = 0 ∧ hh = 0) := fun hc => hgl ⟨hc.2, hc.1⟩
  obtain ⟨hcx, hsx⟩ := cos_sin_arctan2 hh i hglx
  rw [show i ^ 2 + hh ^ 2 = hh ^ 2 + i ^ 2 by ring] at hcx hsx
  rw [← hs_def] at hcx hsx
  have hgly : ¬(s = 0 ∧ -g = 0) := fun hc => hspos.ne' hc.1
  obtain ⟨hcy, hsy⟩ := cos_sin_arctan2 (-g) s hgly
  have hy1 : s ^ 2 + (-g) ^ 2 = 1 := by
    rw [hs2]
    linear_combination R3
  rw [hy1, Real.sqrt_one, div_one] at hcy hsy
  have hglz : ¬(a = 0 ∧ d = 0) := by
    rintro ⟨ha, hd⟩
    rw [ha, hd] at C1
    have hz : hh ^ 2 + i ^ 2 = 0 := by
      linear_combination R3 - C1
    exact absurd hz hSpos.ne'
  obtain ⟨hcz, hsz⟩ := cos_sin_arctan2 d a hglz
  have hz1 : a ^ 2 + d ^ 2 = s ^ 2 := by
    rw [hs2]
    linear_combination C1 - R3
  rw [hz1, Real.sqrt_sq hspos.le] at hcz hsz
  -- assemble the nine entries
  simp only [rotation_matrix_to_euler_angles, euler_angles_to_rotation_matrix, Mat3.mul]
  rw [← hs_def]
  ext
  · simp only [hcz, hcy, hcx, hsz, hsy, hsx]
    field_simp
  · simp only [hcz, hcy, hcx, hsz, hsy, hsx]
    field_simp
    linear_combination (-(s ^ 2)) * (hh * R13 + i * cof2 + b * hs2)
  · simp only [hcz, hcy, hcx, hsz, hsy, hsx]
    field_simp
    linear_combination (-(s ^ 2)) * (i * R13 - hh * cof2 + c * hs2)
  · simp only [hcz, hcy, hcx, hsz, hsy, hsx]
    field_simp
  · simp only [hcz, hcy, hcx, hsz, hsy, hsx]
    field_simp
    linear_combination (-(s ^ 2)) * (hh * R23 - i * cof1 + e * hs2)
  · simp only [hcz, hcy, hcx, hsz, hsy, hsx]
    field_simp
    linear_combination (-(s ^ 2)) * (i * R23 + hh * cof1 + f * hs2)
  · simp only [hcz, hcy, hcx, hsz, hsy, hsx]
    ring
  · simp only [hcz, hcy, hcx, hsz, hsy, hsx]
    field_simp
  · simp only [hcz, hcy, hcx, hsz, hsy, hsx]
    field_simp


/-- C3, witness: the round trip at the identity rotation. -/
theorem C3_euler_round_trip_witness :
    (Mat3.mul Mat3.id (Mat3.transpose Mat3.id) = Mat3.id ∧
     Mat3.mul (Mat3.transpose Mat3.id) Mat3.id = Mat3.id ∧
     Mat3.det Mat3.id = 1 ∧
     ¬(Mat3.id.r21 = 0 ∧ Mat3.id.r22 = 0)) ∧
    euler_angles_to_rotation_matrix
      (rotation_matrix_to_euler_angles Mat3.id).1
      (rotation_matrix_to_euler_angles Mat3.id).2.1
      (rotation_matrix_to_euler_angles Mat3.id).2.2 = Mat3.id :=
  ⟨⟨by norm_num [Mat3.mul, Mat3.transpose, Mat3.id],
    by norm_num [Mat3.mul, Mat3.transpose, Mat3.id],
    by norm_num [Mat3.det, Mat3.id],
    by norm_num [Mat3.id]⟩,
   C3_euler_round_trip Mat3.id
     (by norm_num [Mat3.mul, Mat3.transpose, Mat3.id])
     (by norm_num [Mat3.mul, Mat3.transpose, Mat3.id])
     (by norm_num [Mat3.det, Mat3.id])
     (by norm_num [Mat3.id])⟩

/-! ## MicroEnvironmentEncoder: `extract_from_one_file`
(BackboneMicroEnvironmentFeature.py lines 33-65) and the torsions
`get_phi` / `get_psi` (geometry.py lines 7-47) -/

/-- A residue as seen by the torsion computations: its parent chain id,
residue number, hetero flag, and backbone atom coordinates N, CA, C. -/
structure ChainRes where
  chain : Char
  seq : Int
  flag : List Char
  atomN : V3
  atomCA : V3
  atomC : V3

/-- Modelled from the spec: residue lookup by number inside a chain
(`chain[i]`, Bio.PDB `Chain.__getitem__`, an external collaborator):
the residue of the chain carrying number `i`, or a `KeyError`
(modelled by `none`) when no such residue exists — per §4.3 and §7 of
the spec this covers chain termini, where the adjacent residue "does
not exist". -/
def chainGet (ch : List ChainRes) (i : Int) : Option ChainRes :=
  ch.find? (fun r => r.seq == i)

/-- geometry.py lines 7-26, `get_phi`: fetch the previous residue
(`chain[res_id[1] - 1]`, raising when absent), raise on a
solvent/heteroatom flag, and otherwise compute the dihedral of
(previous C, N, CA, C).  `calcd` stands for the external
`PDB.calc_dihedral`. -/
def get_phi (calcd : V3 → V3 → V3 → V3 → ℝ) (ch : List ChainRes)
    (res : ChainRes) : Except String ℝ :=
  match chainGet ch (res.seq - 1) with
  | none => Except.error "KeyError"
  | some prev =>
    if isHetFlag prev.flag then Except.error "Hetero residue type!"
    else Except.ok (calcd prev.atomC res.atomN res.atomCA res.atomC)

/-- geometry.py lines 28-47, `get_psi`: fetch the next residue, raise
when absent or solvent/heteroatom, and otherwise compute the dihedral
of (N, CA, C, next N). -/
def get_psi (calcd : V3 → V3 → V3 → V3 → ℝ) (ch : List ChainRes)
    (res : ChainRes) : Except String ℝ :=
  match chainGet ch (res.seq + 1) with
  | none => Except.error "KeyError"
  | some next =>
    if isHetFlag next.flag then Except.error "Hetero residue type!"
    else Except.ok (calcd res.atomN res.atomCA res.atomC next.atomN)

/-- One emitted feature record (BackboneMicroEnvironmentFeature.py
lines 40-65): the four torsions, the shift of res2's CA expressed in
res1's local frame (line 56), and the relative-orientation Euler angles
(lines 60-63). -/
structure FeatureRec where
  res1 : ChainRes
  res2 : ChainRes
  phi1 : ℝ
  psi1 : ℝ
  phi2 : ℝ
  psi2 : ℝ
  shift : V3
  theta : ℝ × ℝ × ℝ

def Mat3.mulVec (m : Mat3) (v : V3) : V3 :=
  ⟨m.r00 * v.x + m.r01 * v.y + m.r02 * v.z,
   m.r10 * v.x + m.r11 * v.y + m.r12 * v.z,
   m.r20 * v.x + m.r21 * v.y + m.r22 * v.z⟩

/-- BackboneMicroEnvironmentFeature.py lines 52-63: the post-torsion
part of the feature record, built from the stub matrices of both
residues (it raises nothing: all atoms are present on the residues). -/
noncomputable def mkFeature (r1 r2 : ChainRes) (phi1 psi1 phi2 psi2 : ℝ) : FeatureRec :=
  ⟨r1, r2, phi1, psi1, phi2, psi2,
   Mat3.mulVec (Mat3.transpose (get_residue_stub_matrix r1.atomN r1.atomCA r1.atomC).1)
     (V3.sub r2.atomCA r1.atomCA),
   rotation_matrix_to_euler_angles
     (Mat3.mul (Mat3.transpose (get_residue_stub_matrix r1.atomN r1.atomCA r1.atomC).1)
       (get_residue_stub_matrix r2.atomN r2.atomCA r2.atomC).1)⟩

/-- The `try` block of BackboneMicroEnvironmentFeature.py lines 44-50:
compute the four torsions of the pair; any raised exception (absent or
solvent/heteroatom adjacent residue) yields `none`. -/
def tryTorsions (calcd : V3 → V3 → V3 → V3 → ℝ) (chains : Char → List ChainRes)
    (p : ChainRes × ChainRes) : Option (ℝ × ℝ × ℝ × ℝ) :=
  match get_phi calcd (chains p.1.chain) p.1, get_psi calcd (chains p.1.chain) p.1,
        get_phi calcd (chains p.2.chain) p.2, get_psi calcd (chains p.2.chain) p.2 with
  | Except.ok phi1, Except.ok psi1, Except.ok phi2, Except.ok psi2 =>
    some (phi1, psi1, phi2, psi2)
  | _, _, _, _ => none

/-- BackboneMicroEnvironmentFeature.py lines 39-65: the pair loop of
`extract_from_one_file`.  A pair whose torsion block raises is skipped
(`except: continue`) and processing continues with the remaining
pairs; a successful pair appends one record, in order. -/
noncomputable def extractPairs (calcd : V3 → V3 → V3 → V3 → ℝ)
    (chains : Char → List ChainRes) :
    List (ChainRes × ChainRes) → List FeatureRec
  | [] => []
  | p :: rest =>
    match tryTorsions calcd chains p with
    | some t => mkFeature p.1 p.2 t.1 t.2.1 t.2.2.1 t.2.2.2 :: extractPairs calcd chains rest
    | none => extractPairs calcd chains rest

/-- The adjacent residue needed for the phi dihedral exists and is not
a solvent/heteroatom residue. -/
def phiAvailable (ch : List ChainRes) (res : ChainRes) : Bool :=
  match chainGet ch (res.seq - 1) with
  | none => false
  | some prev => !(isHetFlag prev.flag)

/-- The adjacent residue needed for the psi dihedral exists and is not
a solvent/heteroatom residue. -/
def psiAvailable (ch : List ChainRes) (res : ChainRes) : Bool :=
  match chainGet ch (res.seq + 1) with
  | none => false
  | some next => !(isHetFlag next.flag)

/-- All four torsions of the pair have their adjacent residues
available. -/
def pairTorsionsAvailable (chains : Char → List ChainRes)
    (p : ChainRes × ChainRes) : Bool :=
  phiAvailable (chains p.1.chain) p.1 && psiAvailable (chains p.1.chain) p.1 &&
    phiAvailable (chains p.2.chain) p.2 && psiAvailable (chains p.2.chain) p.2

theorem extractPairs_cons (calcd : V3 → V3 → V3 → V3 → ℝ)
    (chains : Char → List ChainRes) (p : ChainRes × ChainRes)
    (rest : List (ChainRes × ChainRes)) :
    extractPairs calcd chains (p :: rest) =
      match tryTorsions calcd chains p with
      | some t =>
        mkFeature p.1 p.2 t.1 t.2.1 t.2.2.1 t.2.2.2 :: extractPairs calcd chains rest
      | none => extractPairs calcd chains rest := rfl

theorem get_phi_ok_available {calcd : V3 → V3 → V3 → V3 → ℝ}
    {ch : List ChainRes} {res : ChainRes} {v : ℝ}
    (h : get_phi calcd ch res = Except.ok v) : phiAvailable ch res = true := by
  unfold get_phi at h
  split at h
  · exact absurd h (by simp)
  next prev hget =>
    split at h
    next hf => exact absurd h (by simp)
    next hf =>
      unfold phiAvailable
      rw [hget]
      simp at hf
      simp [hf]

theorem get_psi_ok_available {calcd : V3 → V3 → V3 → V3 → ℝ}
    {ch : List ChainRes} {res : ChainRes} {v : ℝ}
    (h : get_psi calcd ch res = Except.ok v) : psiAvailable ch res = true := by
  unfold get_psi at h
  split at h
  · exact absurd h (by simp)
  next next_ hget =>
    split at h
    next hf => exact absurd h (by simp)
    next hf =>
      unfold psiAvailable
      rw [hget]
      simp at hf
      simp [hf]

theorem tryTorsions_none_of_unavailable {calcd : V3 → V3 → V3 → V3 → ℝ}
    {chains : Char → List ChainRes} {p : ChainRes × ChainRes}
    (hfail : pairTorsionsAvailable chains p = false) :
    tryTorsions calcd chains p = none := by
  cases htry : tryTorsions calcd chains p with
  | none => rfl
  | some t =>
    exfalso
    unfold tryTorsions at htry
    split at htry
    next h1 h2 h3 h4 =>
      rw [pairTorsionsAvailable, get_phi_ok_available h1, get_psi_ok_available h2,
        get_phi_ok_available h3, get_psi_ok_available h4] at hfail
      simp at hfail
    next => exact absurd htry (by simp)

theorem extractPairs_append (calcd : V3 → V3 → V3 → V3 → ℝ)
    (chains : Char → List ChainRes) (l1 l2 : List (ChainRes × ChainRes)) :
    extractPairs calcd chains (l1 ++ l2) =
      extractPairs calcd chains l1 ++ extractPairs calcd chains l2 := by
  induction l1 with
  | nil => rfl
  | cons p rest ih =>
    rw [List.cons_append, extractPairs_cons, extractPairs_cons]
    cases tryTorsions calcd chains p with
    | some t =>
      dsimp only
      rw [ih, List.cons_append]
    | none =>
      dsimp only
      exact ih

/-- C9.  When one of the adjacent residues needed for a phi or psi
dihedral of a pair does not exist or is a solvent/heteroatom residue,
the pair loop of `extract_from_one_file` skips exactly that pair: the
output over `pre ++ [p] ++ suf` equals the output over `pre ++ suf`,
which is the records of `pre` (unchanged) followed by the records of
`suf` — the batch is not aborted. -/
theorem C9_unavailable_pair_skipped (calcd : V3 → V3 → V3 → V3 → ℝ)
    (chains : Char → List ChainRes) (pre suf : List (ChainRes × ChainRes))
    (p : ChainRes × ChainRes)
    (hfail : pairTorsionsAvailable chains p = false) :
    extractPairs calcd chains (pre ++ p :: suf) =
      extractPairs calcd chains (pre ++ suf) ∧
    extractPairs calcd chains (pre ++ suf) =
      extractPairs calcd chains pre ++ extractPairs calcd chains suf := by
  constructor
  · rw [extractPairs_append, extractPairs_append, extractPairs_cons,
      tryTorsions_none_of_unavailable hfail]
  · exact extractPairs_append calcd chains pre suf

/-- A synthetic chain for the C9 witness: residues 4, 5, 6 in a row and
an isolated residue 9 whose phi-predecessor (residue 8) is missing. -/
noncomputable def c9resMid : ChainRes := ⟨'A', 5, [' '], ⟨0, 0, 0⟩, ⟨0, 0, 0⟩, ⟨0, 0, 0⟩⟩

noncomputable def c9resIso : ChainRes := ⟨'A', 9, [' '], ⟨0, 0, 0⟩, ⟨0, 0, 0⟩, ⟨0, 0, 0⟩⟩

noncomputable def c9chain : List ChainRes :=
  [⟨'A', 4, [' '], ⟨0, 0, 0⟩, ⟨0, 0, 0⟩, ⟨0, 0, 0⟩⟩, c9resMid,
   ⟨'A', 6, [' '], ⟨0, 0, 0⟩, ⟨0, 0, 0⟩, ⟨0, 0, 0⟩⟩, c9resIso]

/-- C9, witness: the pair at the isolated residue 9 is skipped while
the preceding pair's records are unchanged. -/
theorem C9_unavailable_pair_skipped_witness :
    pairTorsionsAvailable (fun _ => c9chain) (c9resIso, c9resIso) = false ∧
    (extractPairs (fun _ _ _ _ => (0 : ℝ)) (fun _ => c9chain)
        ([(c9resMid, c9resMid)] ++ (c9resIso, c9resIso) :: []) =
      extractPairs (fun _ _ _ _ => (0 : ℝ)) (fun _ => c9chain)
        ([(c9resMid, c9resMid)] ++ []) ∧
    extractPairs (fun _ _ _ _ => (0 : ℝ)) (fun _ => c9chain)
        ([(c9resMid, c9resMid)] ++ []) =
      extractPairs (fun _ _ _ _ => (0 : ℝ)) (fun _ => c9chain) [(c9resMid, c9resMid)] ++
        extractPairs (fun _ _ _ _ => (0 : ℝ)) (fun _ => c9chain) []) :=
  ⟨by decide,
   C9_unavailable_pair_skipped (fun _ _ _ _ => (0 : ℝ)) (fun _ => c9chain)
     [(c9resMid, c9resMid)] [] (c9resIso, c9resIso) (by decide)⟩
